import Mathlib

/-!
Verification development for the `ts_aos_analysis` utilities.

The repository has two unrelated modules:

* `butlerUtils.py`: `get_task_metadata` (a thin fetch loop over an external
  Butler data-access client) and `get_timing_from_metadata` (per-task timing
  aggregation from metadata records).
* `blockUtils.py`: `add_property` and `build_configuration_schema`
  (recursive YAML-like schema-string serialization).

Python dictionary access that can raise `KeyError`, indexing that can raise
`IndexError`, and `min`/`max` on an empty sequence are embedded with
`Except String` results carrying the Python error kind.  Timestamps are the
strings the records carry (Python compares them lexicographically, as Lean
`String` order does).  The external `astropy.time.Time(...).mjd` conversion is
an uninterpreted parameter `mjd : String → ℚ` of the embedding, and the
external Butler client of `get_task_metadata` is an injected `fetch` function
that can fail; everything else is translated directly from the source.
-/

set_option autoImplicit false

namespace AosAnalysis

/-! ### butlerUtils.py: data model -/

/--
One metadata record, as `get_timing_from_metadata` reads it:
`quantumArrays` models `v["quantum"].arrays`, a name-indexed collection of
columnar arrays of timestamp strings (the `quantum` sub-record is part of the
record contract), and `metadataKeys` models `list(v.metadata.keys())`, the
ordered keys of the record's metadata mapping.
-/
structure TaskMetadata where
  quantumArrays : List (String × List String)
  metadataKeys : List String

/-- `k in arrs`: Python key-presence test on the array collection. -/
def hasArr (arrs : List (String × List String)) (k : String) : Bool :=
  arrs.any (fun p => p.1 == k)

/-- `arrs[k]`: Python subscript lookup; raises `KeyError` when absent. -/
def getArr (arrs : List (String × List String)) (k : String) :
    Except String (List String) :=
  match arrs.find? (fun p => p.1 == k) with
  | some p => .ok p.2
  | none => .error ("KeyError: " ++ k)

/-- Python `min` over a sequence: raises on an empty sequence, otherwise
folds keeping the first strictly smaller element.  Used at `String` (Python
compares strings lexicographically by code point, the order of `String`) and
at `ℚ` for durations. -/
def pyMin {α : Type} [LinearOrder α] (l : List α) : Except String α :=
  match l with
  | [] => .error "min() arg is an empty sequence"
  | x :: xs => .ok (xs.foldl (fun b y => if y < b then y else b) x)

/-- Python `max` over a sequence: raises on an empty sequence. -/
def pyMax {α : Type} [LinearOrder α] (l : List α) : Except String α :=
  match l with
  | [] => .error "max() arg is an empty sequence"
  | x :: xs => .ok (xs.foldl (fun b y => if b < y then y else b) x)

/-- `list(v.metadata.keys())[0]`: raises `IndexError` on an empty mapping. -/
def firstKey (ks : List String) : Except String String :=
  match ks with
  | [] => .error "IndexError: list index out of range"
  | k :: _ => .ok k

/-- `(Time(stop[:-6]).mjd - Time(start[:-6]).mjd) * 86400`: the timestamp text
with its last 6 characters stripped is parsed by the uninterpreted `mjd`. -/
def duration (mjd : String → ℚ) (start stop : String) : ℚ :=
  (mjd (stop.dropRight 6) - mjd (start.dropRight 6)) * 86400

/--
The body of the inner `for v in vv` loop of `get_timing_from_metadata`:
select Convention A if `startUtc` is a key of `v["quantum"].arrays`
(`start = min(arrs["prepUtc"])`, `stop = max(arrs["endUtc"])`), else
Convention B if `runQuantumStartCpuTime` is a key
(`start = min(arrs["runQuantumStartUtc"])`, `stop = max(arrs["runQuantumEndUtc"])`),
else `continue` (`.ok none`).  A processed record yields the tuple appended to
`jobs` (label from the first metadata key, start, stop) together with the
duration appended to the per-task duration list.
-/
def processRecord (mjd : String → ℚ) (v : TaskMetadata) :
    Except String (Option (String × String × String × ℚ)) :=
  let arrs := v.quantumArrays
  if hasArr arrs "startUtc" then
    match getArr arrs "prepUtc" with
    | .error e => .error e
    | .ok ps =>
      match pyMin ps with
      | .error e => .error e
      | .ok start =>
        match getArr arrs "endUtc" with
        | .error e => .error e
        | .ok es =>
          match pyMax es with
          | .error e => .error e
          | .ok stop =>
            match firstKey v.metadataKeys with
            | .error e => .error e
            | .ok label => .ok (some (label, start, stop, duration mjd start stop))
  else if hasArr arrs "runQuantumStartCpuTime" then
    match getArr arrs "runQuantumStartUtc" with
    | .error e => .error e
    | .ok ps =>
      match pyMin ps with
      | .error e => .error e
      | .ok start =>
        match getArr arrs "runQuantumEndUtc" with
        | .error e => .error e
        | .ok es =>
          match pyMax es with
          | .error e => .error e
          | .ok stop =>
            match firstKey v.metadataKeys with
            | .error e => .error e
            | .ok label => .ok (some (label, start, stop, duration mjd start stop))
  else
    .ok none

/--
The inner loop of `get_timing_from_metadata` over one task's record list,
returning in order: the task's contribution to the flat `jobs` list, its
`start_list`, its `stop_list`, and its `duration` list.
-/
def collectRecords (mjd : String → ℚ) :
    List TaskMetadata →
    Except String (List (String × String × String) × List String × List String × List ℚ)
  | [] => .ok ([], [], [], [])
  | v :: vs =>
    match processRecord mjd v with
    | .error e => .error e
    | .ok none => collectRecords mjd vs
    | .ok (some (label, start, stop, d)) =>
      match collectRecords mjd vs with
      | .error e => .error e
      | .ok (j, s, t, dl) => .ok ((label, start, stop) :: j, start :: s, stop :: t, d :: dl)

/--
Processing of one task of `get_timing_from_metadata`: run the record loop,
then `min(start_list)`, `max(stop_list)`, `max(duration)`.
-/
def taskResult (mjd : String → ℚ) (vv : List TaskMetadata) :
    Except String (List (String × String × String) × String × String × ℚ) :=
  match collectRecords mjd vv with
  | .error e => .error e
  | .ok (j, starts, stops, durs) =>
    match pyMin starts with
    | .error e => .error e
    | .ok f =>
      match pyMax stops with
      | .error e => .error e
      | .ok l =>
        match pyMax durs with
        | .error e => .error e
        | .ok g => .ok (j, f, l, g)

/--
`get_timing_from_metadata(task_md)`: the input mapping is its ordered
association list; the result is `(jobs, first_job, last_job, longest_job)`.
The `print(k, len(vv))` of the source is console output only and is not
modelled.
-/
def get_timing_from_metadata (mjd : String → ℚ) :
    List (String × List TaskMetadata) →
    Except String
      (List (String × String × String) × List String × List String × List ℚ)
  | [] => .ok ([], [], [], [])
  | (_, vv) :: rest =>
    match taskResult mjd vv with
    | .error e => .error e
    | .ok (j, f, l, g) =>
      match get_timing_from_metadata mjd rest with
      | .error e => .error e
      | .ok (jobs, fs, ls, gs) => .ok (j ++ jobs, f :: fs, l :: ls, g :: gs)

/-! ### butlerUtils.py: get_task_metadata -/

/--
Innermost loop of `get_task_metadata`: `for detector in detector_list`,
fetching the dataset named `task + "_metadata"` at the current visit from the
external client; a fetch failure propagates.
-/
def fetchDetectors {α : Type} (fetch : String → Int → Int → Except String α)
    (task : String) (visit : Int) : List Int → Except String (List α)
  | [] => .ok []
  | d :: ds =>
    match fetch (task ++ "_metadata") visit d with
    | .error e => .error e
    | .ok x =>
      match fetchDetectors fetch task visit ds with
      | .error e => .error e
      | .ok xs => .ok (x :: xs)

/-- Middle loop of `get_task_metadata`: `for visit in visit_list`. -/
def fetchVisits {α : Type} (fetch : String → Int → Int → Except String α)
    (task : String) (detector_list : List Int) : List Int → Except String (List α)
  | [] => .ok []
  | v :: vs =>
    match fetchDetectors fetch task v detector_list with
    | .error e => .error e
    | .ok xs =>
      match fetchVisits fetch task detector_list vs with
      | .error e => .error e
      | .ok ys => .ok (xs ++ ys)

/--
`get_task_metadata(butler_path, collection, task_list, visit_list,
detector_list)`.  The external Butler client is injected as `fetch`: it stands
for `butler.get(f"{task}_metadata", exposure=visit, visit=visit,
detector=detector, collections=collection)` with the path and collection
already bound (the source passes `visit` for both the `exposure` and `visit`
dimensions, so one `Int` argument covers both).  The result maps each task
name, in task-list order, to its ordered record list.
-/
def get_task_metadata {α : Type} (fetch : String → Int → Int → Except String α)
    (task_list : List String) (visit_list detector_list : List Int) :
    Except String (List (String × List α)) :=
  match task_list with
  | [] => .ok []
  | t :: ts =>
    match fetchVisits fetch t detector_list visit_list with
    | .error e => .error e
    | .ok l =>
      match get_task_metadata fetch ts visit_list detector_list with
      | .error e => .error e
      | .ok rest => .ok ((t, l) :: rest)

/-! ### blockUtils.py: data model -/

/--
The `items` fragment of an `array`-typed descriptor dictionary: the keys
`add_property` may read (`type`, `minimum`, `maximum`), each optional since
the dictionary may lack them, plus `description`, which the dictionary may
carry but the code never reads.  Numeric bounds are kept as the text Python
string-interpolation would produce for them.
-/
structure ItemDetails where
  itype : Option String
  minimum : Option String
  maximum : Option String
  idescription : Option String
deriving DecidableEq

mutual
/--
A property-descriptor dictionary for `add_property`:
`description`/`ptype`/`defaultVal` model the `description`, `type` and
`default` keys (a missing key is `none`; default values are kept as the text
Python string-interpolation would produce), `items` the optional nested
`items` fragment, and `properties` the optional ordered nested mapping.
-/
inductive PropDetails where
  | mk (description : Option String) (ptype : Option String)
      (defaultVal : Option String) (items : Option ItemDetails)
      (properties : Option PropList)
/-- An ordered `properties` mapping: name/descriptor pairs in Python dict
iteration order. -/
inductive PropList where
  | nil
  | cons (name : String) (d : PropDetails) (rest : PropList)
end

/-- The `description` entry of the descriptor. -/
def PropDetails.description : PropDetails → Option String
  | .mk dsc _ _ _ _ => dsc

/-- The `type` entry of the descriptor. -/
def PropDetails.ptype : PropDetails → Option String
  | .mk _ ty _ _ _ => ty

/-- The `properties` entry of the descriptor. -/
def PropDetails.properties : PropDetails → Option PropList
  | .mk _ _ _ _ props => props

/-- Number of entries of a `properties` mapping. -/
def PropList.length : PropList → Nat
  | .nil => 0
  | .cons _ _ rest => rest.length + 1

/-- `'  ' * indent_level`: the indentation string. -/
def indentStr : Nat → String
  | 0 => ""
  | n + 1 => "  " ++ indentStr n

/--
The conditional `default:` line of `add_property`: emitted only when the
`default` key is present, with the value wrapped in double quotes exactly when
the descriptor's `type` equals `"string"`.
-/
def defaultLine (indent tyv : String) : Option String → String
  | none => ""
  | some v =>
    indent ++ "  default: " ++ (if tyv = "string" then "\"" ++ v ++ "\"" else v) ++ "\n"

/-- One optional bound line of the `items` block (`minimum:` or `maximum:`). -/
def optLine (pre : String) : Option String → String
  | none => ""
  | some v => pre ++ v ++ "\n"

/--
The `items` block `add_property` emits when `type == "array"` and the `items`
key is present: the item's `type` (a `KeyError` when the fragment lacks it),
then `minimum`/`maximum` each only if present; the item's own `description`
is never read.
-/
def itemsBlock (indent : String) : Option ItemDetails → Except String String
  | none => .ok ""
  | some it =>
    match it.itype with
    | none => .error "KeyError: type"
    | some itv =>
      .ok (indent ++ "  items:\n" ++ indent ++ "    type: " ++ itv ++ "\n"
        ++ optLine (indent ++ "    minimum: ") it.minimum
        ++ optLine (indent ++ "    maximum: ") it.maximum)

mutual
/--
`add_property(prop_name, prop_details, indent_level)`: the name line, then
`description:` and `type:` (each a `KeyError` when missing), the optional
`default:` line, the `items` block when `type == "array"` with `items`
present, and the `properties:` header with one recursive call per nested
entry at `indent_level + 2` when `type == "object"` with `properties`
present.  The Python default `indent_level=1` is passed explicitly here.
-/
def add_property (prop_name : String) (pd : PropDetails) (indent_level : Nat) :
    Except String String :=
  match pd with
  | .mk dsc ty dflt items props =>
    match dsc with
    | none => .error "KeyError: description"
    | some dscv =>
      match ty with
      | none => .error "KeyError: type"
      | some tyv =>
        let indent := indentStr indent_level
        let head := indent ++ prop_name ++ ":\n"
          ++ indent ++ "  description: " ++ dscv ++ "\n"
          ++ indent ++ "  type: " ++ tyv ++ "\n"
          ++ defaultLine indent tyv dflt
        match (if tyv = "array" then itemsBlock indent items else .ok "") with
        | .error e => .error e
        | .ok itemsPart =>
          if tyv = "object" then
            match props with
            | some ps =>
              match add_props ps (indent_level + 2) with
              | .error e => .error e
              | .ok nested =>
                .ok (head ++ itemsPart ++ indent ++ "  properties:\n" ++ nested)
            | none => .ok (head ++ itemsPart)
          else .ok (head ++ itemsPart)

/-- The `for nested_name, nested_details in ... .items()` loop of
`add_property` (also the top-level loop of `build_configuration_schema`):
concatenates one `add_property` result per entry, in mapping order. -/
def add_props (ps : PropList) (lvl : Nat) : Except String String :=
  match ps with
  | .nil => .ok ""
  | .cons n d rest =>
    match add_property n d lvl with
    | .error e => .error e
    | .ok s =>
      match add_props rest lvl with
      | .error e => .error e
      | .ok r => .ok (s ++ r)
end

/--
The per-entry results of the `properties` loop, before concatenation: one
`add_property` output per entry, in mapping order, at the given indent level.
-/
def add_props_blocks (ps : PropList) (lvl : Nat) : Except String (List String) :=
  match ps with
  | .nil => .ok []
  | .cons n d rest =>
    match add_property n d lvl with
    | .error e => .error e
    | .ok s =>
      match add_props_blocks rest lvl with
      | .error e => .error e
      | .ok bs => .ok (s :: bs)

/-- The fixed header of `build_configuration_schema`, with the block number
interpolated into the title and description lines. -/
def schemaHeader (block_number : Int) : String :=
  "$schema: http://json-schema.org/draft-07/schema#\n"
    ++ "title: BLOCK-" ++ toString block_number ++ " configuration\n"
    ++ "description: Configuration for BLOCK-" ++ toString block_number ++ ".\n"
    ++ "type: object\n"
    ++ "properties:\n"

/--
`build_configuration_schema(block_number, properties)`: the fixed header,
then one `add_property` call per top-level entry at indent level 1 (the
Python default), concatenated in mapping order.
-/
def build_configuration_schema (block_number : Int) (properties : PropList) :
    Except String String :=
  match add_props properties 1 with
  | .error e => .error e
  | .ok s => .ok (schemaHeader block_number ++ s)

mutual
/--
A descriptor misses a required field, at the top or at a nesting depth
`add_property` actually reaches: `description` or `type` absent, or an
`object`-typed descriptor whose `properties` mapping contains such a
descriptor (nested mappings under non-`object` types are never read by the
code, so they are not reached).
-/
def hasMissingReq : PropDetails → Bool
  | .mk none _ _ _ _ => true
  | .mk (some _) none _ _ _ => true
  | .mk (some _) (some ty) _ _ props =>
    ty == "object" &&
      (match props with
      | some ps => hasMissingReqList ps
      | none => false)
/-- Some entry of the mapping has a reachable missing required field. -/
def hasMissingReqList : PropList → Bool
  | .nil => false
  | .cons _ d rest => hasMissingReq d || hasMissingReqList rest
end

/-! ### Helper lemmas -/

theorem join_cons (s : String) (l : List String) :
    String.join (s :: l) = s ++ String.join l := by
  apply String.ext
  simp

theorem add_props_eq_join :
    ∀ (ps : PropList) (lvl : Nat) (bs : List String),
      add_props_blocks ps lvl = .ok bs → add_props ps lvl = .ok (String.join bs)
  | .nil, lvl, bs, h => by
    simp only [add_props_blocks] at h
    cases h
    rfl
  | .cons n d rest, lvl, bs, h => by
    simp only [add_props_blocks, add_props] at h ⊢
    cases hp : add_property n d lvl with
    | error e => rw [hp] at h; exact absurd h (by simp)
    | ok s =>
      rw [hp] at h
      cases hr : add_props_blocks rest lvl with
      | error e => rw [hr] at h; exact absurd h (by simp)
      | ok bs' =>
        rw [hr] at h
        cases h
        rw [add_props_eq_join rest lvl bs' hr]
        rw [join_cons]

theorem add_props_blocks_length :
    ∀ (ps : PropList) (lvl : Nat) (bs : List String),
      add_props_blocks ps lvl = .ok bs → bs.length = ps.length
  | .nil, lvl, bs, h => by
    simp only [add_props_blocks] at h
    cases h
    rfl
  | .cons n d rest, lvl, bs, h => by
    simp only [add_props_blocks] at h
    cases hp : add_property n d lvl with
    | error e => rw [hp] at h; exact absurd h (by simp)
    | ok s =>
      rw [hp] at h
      cases hr : add_props_blocks rest lvl with
      | error e => rw [hr] at h; exact absurd h (by simp)
      | ok bs' =>
        rw [hr] at h
        cases h
        simp [PropList.length, add_props_blocks_length rest lvl bs' hr]

/-! ### Claims -/

/--
C6: `build_configuration_schema(7, {})` returns exactly the five fixed header
lines — the draft-07 `$schema` line, `title: BLOCK-7 configuration`,
`description: Configuration for BLOCK-7.`, `type: object`, `properties:` —
with no property lines; more generally, for every block number, an empty
properties mapping yields only the header with the block number interpolated
into the title and description lines.
-/
theorem build_configuration_schema_empty_props :
    (∀ block_number : Int,
      build_configuration_schema block_number .nil = .ok (schemaHeader block_number))
    ∧ build_configuration_schema 7 .nil =
        .ok ("$schema: http://json-schema.org/draft-07/schema#\n"
          ++ "title: BLOCK-7 configuration\n"
          ++ "description: Configuration for BLOCK-7.\n"
          ++ "type: object\n"
          ++ "properties:\n") := by
  constructor
  · intro block_number
    show Except.ok (schemaHeader block_number ++ "") = _
    rw [String.append_empty]
  · rfl

/--
C3: for every descriptor with type `object` carrying a `properties` mapping of
N nested descriptors, `add_property` emits the parent lines followed by the
`properties:` header and exactly N nested property blocks — one per entry of
the mapping, in its iteration order, each produced by a recursive call at
`indent_level + 2` (the hypothesis lists those per-entry recursive results in
order, and the output is their concatenation).
-/
theorem add_property_object_nested
    (name dscv : String) (dflt : Option String) (items : Option ItemDetails)
    (ps : PropList) (lvl : Nat) (bs : List String)
    (h : add_props_blocks ps (lvl + 2) = .ok bs) :
    add_property name (.mk (some dscv) (some "object") dflt items (some ps)) lvl
      = .ok (indentStr lvl ++ name ++ ":\n"
          ++ indentStr lvl ++ "  description: " ++ dscv ++ "\n"
          ++ indentStr lvl ++ "  type: object\n"
          ++ defaultLine (indentStr lvl) "object" dflt
          ++ (indentStr lvl ++ "  properties:\n")
          ++ String.join bs)
    ∧ bs.length = ps.length := by
  constructor
  · rw [add_property]
    simp only [reduceIte]
    rw [add_props_eq_join ps (lvl + 2) bs h]
    rw [if_neg (by decide : ¬ ("object" : String) = "array")]
    rw [show ("  type: object\n" : String) = "  type: " ++ "object" ++ "\n" from rfl]
    simp [String.append_assoc, String.append_empty]
  · exact add_props_blocks_length ps (lvl + 2) bs h

/-- Witness for C3 at a concrete object descriptor with one nested property. -/
theorem add_property_object_nested_witness :
    add_property "obj"
        (.mk (some "d") (some "object") none none
          (some (.cons "a" (.mk (some "da") (some "number") none none none) .nil))) 1
      = .ok (indentStr 1 ++ "obj" ++ ":\n"
          ++ indentStr 1 ++ "  description: " ++ "d" ++ "\n"
          ++ indentStr 1 ++ "  type: object\n"
          ++ defaultLine (indentStr 1) "object" none
          ++ (indentStr 1 ++ "  properties:\n")
          ++ String.join ["      a:\n        description: da\n        type: number\n"])
    ∧ (["      a:\n        description: da\n        type: number\n"] : List String).length
        = (PropList.cons "a" (.mk (some "da") (some "number") none none none) .nil).length :=
  add_property_object_nested "obj" "d" none none
    (.cons "a" (.mk (some "da") (some "number") none none none) .nil) 1
    ["      a:\n        description: da\n        type: number\n"] (by rfl)

/--
C4: for every descriptor with type `array` carrying an `items` block whose
`type` is present, the output is the parent lines followed by the `items:`
header, always the item's `type` line, a `minimum` line exactly when the
items block has a `minimum` key, and a `maximum` line exactly when it has a
`maximum` key (`optLine` of `none` is empty); the item's `type` line — and
each present bound line — occurs in the output, and the output is unchanged
when the item's `description` is dropped, so the item's description is never
emitted.
-/
theorem add_property_array_items
    (name dscv itv : String) (dflt : Option String) (mn mx dsc2 : Option String)
    (props : Option PropList) (lvl : Nat) :
    add_property name (.mk (some dscv) (some "array") dflt (some ⟨some itv, mn, mx, dsc2⟩) props) lvl
      = .ok ((indentStr lvl ++ name ++ ":\n"
          ++ indentStr lvl ++ "  description: " ++ dscv ++ "\n"
          ++ indentStr lvl ++ "  type: array\n"
          ++ defaultLine (indentStr lvl) "array" dflt)
          ++ (indentStr lvl ++ "  items:\n"
            ++ indentStr lvl ++ "    type: " ++ itv ++ "\n"
            ++ optLine (indentStr lvl ++ "    minimum: ") mn
            ++ optLine (indentStr lvl ++ "    maximum: ") mx))
    ∧ (∀ out : String,
        add_property name
            (.mk (some dscv) (some "array") dflt (some ⟨some itv, mn, mx, dsc2⟩) props) lvl
          = .ok out →
        (indentStr lvl ++ "    type: " ++ itv ++ "\n").data <:+: out.data
        ∧ (∀ m, mn = some m →
            (indentStr lvl ++ "    minimum: " ++ m ++ "\n").data <:+: out.data)
        ∧ (∀ m, mx = some m →
            (indentStr lvl ++ "    maximum: " ++ m ++ "\n").data <:+: out.data))
    ∧ add_property name
          (.mk (some dscv) (some "array") dflt (some ⟨some itv, mn, mx, dsc2⟩) props) lvl
        = add_property name
            (.mk (some dscv) (some "array") dflt (some ⟨some itv, mn, mx, none⟩) props) lvl := by
  have harr : ¬ ("array" : String) = "object" := by decide
  have hmain :
      add_property name (.mk (some dscv) (some "array") dflt (some ⟨some itv, mn, mx, dsc2⟩) props) lvl
        = .ok ((indentStr lvl ++ name ++ ":\n"
            ++ indentStr lvl ++ "  description: " ++ dscv ++ "\n"
            ++ indentStr lvl ++ "  type: array\n"
            ++ defaultLine (indentStr lvl) "array" dflt)
            ++ (indentStr lvl ++ "  items:\n"
              ++ indentStr lvl ++ "    type: " ++ itv ++ "\n"
              ++ optLine (indentStr lvl ++ "    minimum: ") mn
              ++ optLine (indentStr lvl ++ "    maximum: ") mx)) := by
    rw [add_property]
    simp only [reduceIte, itemsBlock]
    rw [if_neg harr]
    rw [show ("  type: array\n" : String) = "  type: " ++ "array" ++ "\n" from rfl]
    simp [String.append_assoc]
  refine ⟨hmain, ?_, ?_⟩
  · intro out hout
    rw [hmain] at hout
    cases hout
    refine ⟨?_, ?_, ?_⟩
    · refine ⟨(indentStr lvl ++ name ++ ":\n"
        ++ indentStr lvl ++ "  description: " ++ dscv ++ "\n"
        ++ indentStr lvl ++ "  type: array\n"
        ++ defaultLine (indentStr lvl) "array" dflt
        ++ (indentStr lvl ++ "  items:\n")).data,
        (optLine (indentStr lvl ++ "    minimum: ") mn
          ++ optLine (indentStr lvl ++ "    maximum: ") mx).data, ?_⟩
      simp [String.data_append, List.append_assoc]
    · intro m hm
      subst hm
      refine ⟨(indentStr lvl ++ name ++ ":\n"
        ++ indentStr lvl ++ "  description: " ++ dscv ++ "\n"
        ++ indentStr lvl ++ "  type: array\n"
        ++ defaultLine (indentStr lvl) "array" dflt
        ++ (indentStr lvl ++ "  items:\n"
          ++ indentStr lvl ++ "    type: " ++ itv ++ "\n")).data,
        (optLine (indentStr lvl ++ "    maximum: ") mx).data, ?_⟩
      simp [String.data_append, optLine, List.append_assoc]
    · intro m hm
      subst hm
      refine ⟨(indentStr lvl ++ name ++ ":\n"
        ++ indentStr lvl ++ "  description: " ++ dscv ++ "\n"
        ++ indentStr lvl ++ "  type: array\n"
        ++ defaultLine (indentStr lvl) "array" dflt
        ++ (indentStr lvl ++ "  items:\n"
          ++ indentStr lvl ++ "    type: " ++ itv ++ "\n"
          ++ optLine (indentStr lvl ++ "    minimum: ") mn)).data,
        ([] : List Char), ?_⟩
      simp [String.data_append, optLine, List.append_assoc]
  · rw [hmain]
    rw [add_property]
    simp only [reduceIte, itemsBlock]
    rw [if_neg harr]
    rw [show ("  type: array\n" : String) = "  type: " ++ "array" ++ "\n" from rfl]
    simp [String.append_assoc]

/-- Witness for C4 at a concrete array descriptor with a `minimum` bound and
an (ignored) item description. -/
theorem add_property_array_items_witness :
    ((indentStr 1 ++ "    type: " ++ "number" ++ "\n").data <:+:
      ("  arr:\n    description: d\n    type: array\n    items:\n      type: number\n      minimum: 0\n" : String).data)
    ∧ ((indentStr 1 ++ "    minimum: " ++ "0" ++ "\n").data <:+:
      ("  arr:\n    description: d\n    type: array\n    items:\n      type: number\n      minimum: 0\n" : String).data) :=
  ⟨((add_property_array_items "arr" "d" "number" none (some "0") none (some "ignored")
      none 1).2.1
      "  arr:\n    description: d\n    type: array\n    items:\n      type: number\n      minimum: 0\n"
      (by rfl)).1,
    (((add_property_array_items "arr" "d" "number" none (some "0") none (some "ignored")
      none 1).2.1
      "  arr:\n    description: d\n    type: array\n    items:\n      type: number\n      minimum: 0\n"
      (by rfl)).2.1 "0" rfl)⟩

/--
C5: for every descriptor carrying a `default` key, a successful
`add_property` output has a `default:` line right after the name,
description and type lines, whose value is wrapped in double quotes exactly
when the descriptor's type equals `"string"` and is the literal value text
otherwise.
-/
theorem add_property_default_quoting
    (name dscv tyv v : String) (items : Option ItemDetails) (props : Option PropList)
    (lvl : Nat) (out : String)
    (h : add_property name (.mk (some dscv) (some tyv) (some v) items props) lvl = .ok out) :
    ∃ tail,
      out = indentStr lvl ++ name ++ ":\n"
        ++ indentStr lvl ++ "  description: " ++ dscv ++ "\n"
        ++ indentStr lvl ++ "  type: " ++ tyv ++ "\n"
        ++ (indentStr lvl ++ "  default: "
            ++ (if tyv = "string" then "\"" ++ v ++ "\"" else v) ++ "\n")
        ++ tail := by
  rw [add_property] at h
  cases hit : (if tyv = "array" then itemsBlock (indentStr lvl) items else .ok "") with
  | error e =>
    rw [hit] at h
    exact absurd h (by simp)
  | ok itemsPart =>
    rw [hit] at h
    dsimp only at h
    by_cases hobj : tyv = "object"
    · rw [if_pos hobj] at h
      cases props with
      | none =>
        dsimp only at h
        simp only [Except.ok.injEq] at h
        refine ⟨itemsPart, ?_⟩
        rw [← h]
        simp [defaultLine, String.append_assoc]
      | some ps =>
        dsimp only at h
        cases hn : add_props ps (lvl + 2) with
        | error e =>
          rw [hn] at h
          exact absurd h (by simp)
        | ok nested =>
          rw [hn] at h
          simp only [Except.ok.injEq] at h
          refine ⟨itemsPart ++ (indentStr lvl ++ "  properties:\n") ++ nested, ?_⟩
          rw [← h]
          simp [defaultLine, String.append_assoc]
    · rw [if_neg hobj] at h
      simp only [Except.ok.injEq] at h
      refine ⟨itemsPart, ?_⟩
      rw [← h]
      simp [defaultLine, String.append_assoc]

/-- Witness for C5 at a string-typed descriptor with a default: the value is
quoted. -/
theorem add_property_default_quoting_witness :
    ∃ tail,
      ("  s:\n    description: d\n    type: string\n    default: \"hi\"\n" : String)
        = indentStr 1 ++ "s" ++ ":\n"
        ++ indentStr 1 ++ "  description: " ++ "d" ++ "\n"
        ++ indentStr 1 ++ "  type: " ++ "string" ++ "\n"
        ++ (indentStr 1 ++ "  default: "
            ++ (if ("string" : String) = "string" then "\"" ++ "hi" ++ "\"" else "hi") ++ "\n")
        ++ tail :=
  add_property_default_quoting "s" "d" "string" "hi" none none 1
    "  s:\n    description: d\n    type: string\n    default: \"hi\"\n" (by rfl)

mutual
theorem add_property_error_of_missing :
    ∀ (d : PropDetails) (n : String) (lvl : Nat), hasMissingReq d = true →
      ∃ e, add_property n d lvl = Except.error e
  | .mk none _ _ _ _, n, lvl, _ =>
    ⟨"KeyError: description", by rw [add_property]⟩
  | .mk (some _) none _ _ _, n, lvl, _ =>
    ⟨"KeyError: type", by rw [add_property]⟩
  | .mk (some dscv) (some ty) dflt items none, n, lvl, h =>
    absurd h (by simp [hasMissingReq])
  | .mk (some dscv) (some ty) dflt items (some ps), n, lvl, h => by
    simp only [hasMissingReq, Bool.and_eq_true, beq_iff_eq] at h
    obtain ⟨hty, hps⟩ := h
    subst hty
    obtain ⟨e, he⟩ := add_props_error_of_missing ps (lvl + 2) hps
    refine ⟨e, ?_⟩
    rw [add_property]
    rw [if_neg (by decide : ¬ ("object" : String) = "array")]
    dsimp only
    rw [if_pos rfl]
    rw [he]
theorem add_props_error_of_missing :
    ∀ (ps : PropList) (lvl : Nat), hasMissingReqList ps = true →
      ∃ e, add_props ps lvl = Except.error e
  | .cons n d rest, lvl, h => by
    simp only [hasMissingReqList] at h
    cases hd : hasMissingReq d with
    | true =>
      obtain ⟨e, he⟩ := add_property_error_of_missing d n lvl hd
      refine ⟨e, ?_⟩
      rw [add_props, he]
    | false =>
      rw [hd] at h
      simp only [Bool.false_or] at h
      obtain ⟨e, he⟩ := add_props_error_of_missing rest lvl h
      cases hp : add_property n d lvl with
      | error e' => exact ⟨e', by rw [add_props, hp]⟩
      | ok s => exact ⟨e, by rw [add_props, hp, he]⟩
end

/--
C7: for every descriptor missing the `description` key or the `type` key,
`add_property` fails with a lookup error that propagates to the caller, and
`build_configuration_schema` on a mapping containing such a descriptor at any
(reachable) nesting depth fails the same way; no partial recovery occurs.
-/
theorem missing_required_field_fails
    (n : String) (lvl : Nat) (d : PropDetails) (block_number : Int) (ps : PropList) :
    (d.description = none ∨ d.ptype = none → ∃ e, add_property n d lvl = Except.error e)
    ∧ (hasMissingReqList ps = true →
        ∃ e, build_configuration_schema block_number ps = Except.error e) := by
  constructor
  · intro h
    apply add_property_error_of_missing d n lvl
    obtain ⟨dsc, ty, dflt, items, props⟩ := d
    rcases h with h | h
    · rw [PropDetails.description] at h
      subst h
      rfl
    · rw [PropDetails.ptype] at h
      subst h
      cases dsc with
      | none => rfl
      | some dscv => rfl
  · intro h
    obtain ⟨e, he⟩ := add_props_error_of_missing ps 1 h
    refine ⟨e, ?_⟩
    rw [build_configuration_schema, he]

/-- Witness for C7: a descriptor with no fields at all, and a one-entry
mapping holding it. -/
theorem missing_required_field_fails_witness :
    (∃ e, add_property "p" (.mk none none none none none) 1 = Except.error e)
    ∧ (∃ e,
        build_configuration_schema 7
          (.cons "p" (.mk none none none none none) .nil) = Except.error e) :=
  ⟨(missing_required_field_fails "p" 1 (.mk none none none none none) 7
      (.cons "p" (.mk none none none none none) .nil)).1 (Or.inl rfl),
    (missing_required_field_fails "p" 1 (.mk none none none none none) 7
      (.cons "p" (.mk none none none none none) .nil)).2 rfl⟩

theorem processRecord_skip (mjd : String → ℚ) (v : TaskMetadata)
    (h1 : hasArr v.quantumArrays "startUtc" = false)
    (h2 : hasArr v.quantumArrays "runQuantumStartCpuTime" = false) :
    processRecord mjd v = .ok none := by
  simp [processRecord, h1, h2]

theorem collectRecords_skip (mjd : String → ℚ) (v : TaskMetadata)
    (h : processRecord mjd v = .ok none) :
    ∀ (rs₁ rs₂ : List TaskMetadata),
      collectRecords mjd (rs₁ ++ v :: rs₂) = collectRecords mjd (rs₁ ++ rs₂)
  | [], rs₂ => by
    simp only [List.nil_append, collectRecords, h]
  | u :: us, rs₂ => by
    have ih := collectRecords_skip mjd v h us rs₂
    simp only [List.cons_append, collectRecords, List.append_eq, ih]

theorem taskResult_congr (mjd : String → ℚ) (vv vv' : List TaskMetadata)
    (h : collectRecords mjd vv = collectRecords mjd vv') :
    taskResult mjd vv = taskResult mjd vv' := by
  rw [taskResult, taskResult, h]

theorem get_timing_congr (mjd : String → ℚ) (vv vv' : List TaskMetadata)
    (h : taskResult mjd vv = taskResult mjd vv') :
    ∀ (pre : List (String × List TaskMetadata)) (name : String)
      (post : List (String × List TaskMetadata)),
      get_timing_from_metadata mjd (pre ++ (name, vv) :: post)
        = get_timing_from_metadata mjd (pre ++ (name, vv') :: post)
  | [], name, post => by
    simp only [List.nil_append, get_timing_from_metadata, h]
  | p :: pre, name, post => by
    obtain ⟨k, kv⟩ := p
    have ih := get_timing_congr mjd vv vv' h pre name post
    simp only [List.cons_append, get_timing_from_metadata, List.append_eq, ih]

/--
C1: the timing convention of a record is selected by key presence in its
quantum arrays: with `startUtc` present the record yields Convention A
(start is `min` of the `prepUtc` array, stop is `max` of the `endUtc`
array); otherwise, with `runQuantumStartCpuTime` present, Convention B
(start is `min` of `runQuantumStartUtc`, stop is `max` of
`runQuantumEndUtc`); otherwise the record is skipped and contributes nothing
to the flat jobs list or any per-task list of `get_timing_from_metadata`.
-/
theorem timing_convention_selection (mjd : String → ℚ) (v : TaskMetadata) :
    (∀ (ps es : List String) (s t k : String) (ks : List String),
      hasArr v.quantumArrays "startUtc" = true →
      getArr v.quantumArrays "prepUtc" = .ok ps → pyMin ps = .ok s →
      getArr v.quantumArrays "endUtc" = .ok es → pyMax es = .ok t →
      v.metadataKeys = k :: ks →
      processRecord mjd v = .ok (some (k, s, t, duration mjd s t)))
    ∧ (∀ (ps es : List String) (s t k : String) (ks : List String),
      hasArr v.quantumArrays "startUtc" = false →
      hasArr v.quantumArrays "runQuantumStartCpuTime" = true →
      getArr v.quantumArrays "runQuantumStartUtc" = .ok ps → pyMin ps = .ok s →
      getArr v.quantumArrays "runQuantumEndUtc" = .ok es → pyMax es = .ok t →
      v.metadataKeys = k :: ks →
      processRecord mjd v = .ok (some (k, s, t, duration mjd s t)))
    ∧ (hasArr v.quantumArrays "startUtc" = false →
      hasArr v.quantumArrays "runQuantumStartCpuTime" = false →
      processRecord mjd v = .ok none
      ∧ ∀ (pre : List (String × List TaskMetadata)) (name : String)
          (rs₁ rs₂ : List TaskMetadata) (post : List (String × List TaskMetadata)),
          get_timing_from_metadata mjd (pre ++ (name, rs₁ ++ v :: rs₂) :: post)
            = get_timing_from_metadata mjd (pre ++ (name, rs₁ ++ rs₂) :: post)) := by
  refine ⟨?_, ?_, ?_⟩
  · intro ps es s t k ks hA hp hmin he hmax hkeys
    simp [processRecord, hA, hp, hmin, he, hmax, hkeys, firstKey]
  · intro ps es s t k ks hA hB hp hmin he hmax hkeys
    simp [processRecord, hA, hB, hp, hmin, he, hmax, hkeys, firstKey]
  · intro hA hB
    have hskip := processRecord_skip mjd v hA hB
    refine ⟨hskip, ?_⟩
    intro pre name rs₁ rs₂ post
    exact get_timing_congr mjd (rs₁ ++ v :: rs₂) (rs₁ ++ rs₂)
      (taskResult_congr mjd _ _ (collectRecords_skip mjd v hskip rs₁ rs₂)) pre name post

/-- Witness for C1 at one concrete record per convention and a skipped one. -/
theorem timing_convention_selection_witness :
    processRecord (fun _ => (0 : ℚ))
        ⟨[("startUtc", ["x"]), ("prepUtc", ["a"]), ("endUtc", ["c"])], ["lblA"]⟩
      = .ok (some ("lblA", "a", "c", duration (fun _ => (0 : ℚ)) "a" "c"))
    ∧ processRecord (fun _ => (0 : ℚ))
        ⟨[("runQuantumStartCpuTime", ["z"]), ("runQuantumStartUtc", ["s"]),
          ("runQuantumEndUtc", ["e"])], ["lblB"]⟩
      = .ok (some ("lblB", "s", "e", duration (fun _ => (0 : ℚ)) "s" "e"))
    ∧ processRecord (fun _ => (0 : ℚ)) ⟨[("foo", [])], []⟩ = .ok none
    ∧ get_timing_from_metadata (fun _ => (0 : ℚ))
        [("t", [⟨[("foo", [])], []⟩,
          ⟨[("startUtc", ["x"]), ("prepUtc", ["a"]), ("endUtc", ["c"])], ["lblA"]⟩])]
      = get_timing_from_metadata (fun _ => (0 : ℚ))
        [("t", [⟨[("startUtc", ["x"]), ("prepUtc", ["a"]), ("endUtc", ["c"])],
          ["lblA"]⟩])] :=
  ⟨(timing_convention_selection (fun _ => (0 : ℚ))
      ⟨[("startUtc", ["x"]), ("prepUtc", ["a"]), ("endUtc", ["c"])], ["lblA"]⟩).1
      ["a"] ["c"] "a" "c" "lblA" [] rfl rfl rfl rfl rfl rfl,
    (timing_convention_selection (fun _ => (0 : ℚ))
      ⟨[("runQuantumStartCpuTime", ["z"]), ("runQuantumStartUtc", ["s"]),
        ("runQuantumEndUtc", ["e"])], ["lblB"]⟩).2.1
      ["s"] ["e"] "s" "e" "lblB" [] rfl rfl rfl rfl rfl rfl rfl,
    ((timing_convention_selection (fun _ => (0 : ℚ)) ⟨[("foo", [])], []⟩).2.2 rfl rfl).1,
    ((timing_convention_selection (fun _ => (0 : ℚ)) ⟨[("foo", [])], []⟩).2.2 rfl rfl).2
      [] "t" []
      [⟨[("startUtc", ["x"]), ("prepUtc", ["a"]), ("endUtc", ["c"])], ["lblA"]⟩] []⟩

theorem foldlMin_spec {α : Type} [LinearOrder α] :
    ∀ (as : List α) (b : α),
      (as.foldl (fun b y => if y < b then y else b) b = b
        ∨ as.foldl (fun b y => if y < b then y else b) b ∈ as)
      ∧ as.foldl (fun b y => if y < b then y else b) b ≤ b
      ∧ ∀ y ∈ as, as.foldl (fun b y => if y < b then y else b) b ≤ y
  | [], b => by simp
  | a :: as, b => by
    obtain ⟨hmem, hle, hall⟩ := foldlMin_spec as (if a < b then a else b)
    simp only [List.foldl_cons]
    refine ⟨?_, ?_, ?_⟩
    · rcases hmem with hmem | hmem
      · rw [hmem]
        split
        · right; exact List.mem_cons_self a as
        · left; rfl
      · right; exact List.mem_cons_of_mem a hmem
    · refine le_trans hle ?_
      split
      · exact le_of_lt (by assumption)
      · exact le_refl b
    · intro y hy
      rcases List.mem_cons.mp hy with hy | hy
      · subst hy
        refine le_trans hle ?_
        split
        · exact le_refl y
        · exact le_of_not_lt (by assumption)
      · exact hall y hy

theorem foldlMax_spec {α : Type} [LinearOrder α] :
    ∀ (as : List α) (b : α),
      (as.foldl (fun b y => if b < y then y else b) b = b
        ∨ as.foldl (fun b y => if b < y then y else b) b ∈ as)
      ∧ b ≤ as.foldl (fun b y => if b < y then y else b) b
      ∧ ∀ y ∈ as, y ≤ as.foldl (fun b y => if b < y then y else b) b
  | [], b => by simp
  | a :: as, b => by
    obtain ⟨hmem, hle, hall⟩ := foldlMax_spec as (if b < a then a else b)
    simp only [List.foldl_cons]
    refine ⟨?_, ?_, ?_⟩
    · rcases hmem with hmem | hmem
      · rw [hmem]
        split
        · right; exact List.mem_cons_self a as
        · left; rfl
      · right; exact List.mem_cons_of_mem a hmem
    · refine le_trans ?_ hle
      split
      · exact le_of_lt (by assumption)
      · exact le_refl b
    · intro y hy
      rcases List.mem_cons.mp hy with hy | hy
      · subst hy
        refine le_trans ?_ hle
        split
        · exact le_refl y
        · exact le_of_not_lt (by assumption)
      · exact hall y hy

theorem pyMin_spec {α : Type} [LinearOrder α] (l : List α) (x : α)
    (h : pyMin l = .ok x) : x ∈ l ∧ ∀ y ∈ l, x ≤ y := by
  cases l with
  | nil => exact absurd h (by simp [pyMin])
  | cons a as =>
    simp only [pyMin, Except.ok.injEq] at h
    subst h
    obtain ⟨hmem, hle, hall⟩ := foldlMin_spec as a
    refine ⟨?_, ?_⟩
    · rcases hmem with hmem | hmem
      · rw [hmem]; exact List.mem_cons_self a as
      · exact List.mem_cons_of_mem a hmem
    · intro y hy
      rcases List.mem_cons.mp hy with hy | hy
      · subst hy; exact hle
      · exact hall y hy

theorem pyMax_spec {α : Type} [LinearOrder α] (l : List α) (x : α)
    (h : pyMax l = .ok x) : x ∈ l ∧ ∀ y ∈ l, y ≤ x := by
  cases l with
  | nil => exact absurd h (by simp [pyMax])
  | cons a as =>
    simp only [pyMax, Except.ok.injEq] at h
    subst h
    obtain ⟨hmem, hle, hall⟩ := foldlMax_spec as a
    refine ⟨?_, ?_⟩
    · rcases hmem with hmem | hmem
      · rw [hmem]; exact List.mem_cons_self a as
      · exact List.mem_cons_of_mem a hmem
    · intro y hy
      rcases List.mem_cons.mp hy with hy | hy
      · subst hy; exact hle
      · exact hall y hy

theorem pyMin_pair {α : Type} [LinearOrder α] (a b : α) :
    pyMin [a, b] = .ok (min a b) := by
  simp only [pyMin, List.foldl_cons, List.foldl_nil]
  congr 1
  rcases lt_or_ge b a with h | h
  · rw [if_pos h, min_eq_right (le_of_lt h)]
  · rw [if_neg (not_lt_of_ge h), min_eq_left h]

theorem pyMax_pair {α : Type} [LinearOrder α] (a b : α) :
    pyMax [a, b] = .ok (max a b) := by
  simp only [pyMax, List.foldl_cons, List.foldl_nil]
  congr 1
  rcases lt_or_ge a b with h | h
  · rw [if_pos h, max_eq_right (le_of_lt h)]
  · rw [if_neg (not_lt_of_ge h), max_eq_left h]

theorem get_timing_append (mjd : String → ℚ) :
    ∀ (l1 l2 : List (String × List TaskMetadata))
      (J1 : List (String × String × String)) (F1 L1 : List String) (G1 : List ℚ)
      (J2 : List (String × String × String)) (F2 L2 : List String) (G2 : List ℚ),
      get_timing_from_metadata mjd l1 = .ok (J1, F1, L1, G1) →
      get_timing_from_metadata mjd l2 = .ok (J2, F2, L2, G2) →
      get_timing_from_metadata mjd (l1 ++ l2)
        = .ok (J1 ++ J2, F1 ++ F2, L1 ++ L2, G1 ++ G2)
  | [], l2, J1, F1, L1, G1, J2, F2, L2, G2, h1, h2 => by
    simp only [get_timing_from_metadata, Except.ok.injEq, Prod.mk.injEq] at h1
    obtain ⟨hJ, hF, hL, hG⟩ := h1
    subst hJ; subst hF; subst hL; subst hG
    simpa using h2
  | (k, vv) :: rest, l2, J1, F1, L1, G1, J2, F2, L2, G2, h1, h2 => by
    simp only [get_timing_from_metadata] at h1
    cases htask : taskResult mjd vv with
    | error e => rw [htask] at h1; exact absurd h1 (by simp)
    | ok r =>
      obtain ⟨j, f, l, g⟩ := r
      rw [htask] at h1
      cases hrest : get_timing_from_metadata mjd rest with
      | error e => rw [hrest] at h1; exact absurd h1 (by simp)
      | ok R =>
        obtain ⟨J, F, L, G⟩ := R
        rw [hrest] at h1
        simp only [Except.ok.injEq, Prod.mk.injEq] at h1
        obtain ⟨hJ, hF, hL, hG⟩ := h1
        subst hJ; subst hF; subst hL; subst hG
        have ih := get_timing_append mjd rest l2 J F L G J2 F2 L2 G2 hrest h2
        simp [get_timing_from_metadata, htask, ih, List.append_assoc]

theorem processRecord_convA (mjd : String → ℚ) (v : TaskMetadata)
    (ps es : List String) (s t k : String) (ks : List String)
    (hA : hasArr v.quantumArrays "startUtc" = true)
    (hp : getArr v.quantumArrays "prepUtc" = .ok ps) (hmin : pyMin ps = .ok s)
    (he : getArr v.quantumArrays "endUtc" = .ok es) (hmax : pyMax es = .ok t)
    (hkeys : v.metadataKeys = k :: ks) :
    processRecord mjd v = .ok (some (k, s, t, duration mjd s t)) := by
  simp [processRecord, hA, hp, hmin, he, hmax, hkeys, firstKey]

/--
C2: for a task whose record loop collected at least one instance,
`get_timing_from_metadata` appends, at that task's position, the minimum of
the collected start values, the maximum of the collected stop values, and the
maximum of the per-instance durations, each duration being
`(mjd(stop text minus last 6 chars) - mjd(start text minus last 6 chars)) * 86400`;
in particular, for a task of exactly two Convention-A instances the outputs
are the minimum of the two starts, the maximum of the two stops and the
maximum of the two computed durations.
-/
theorem per_task_aggregation (mjd : String → ℚ) :
    (∀ (pre post : List (String × List TaskMetadata)) (name : String)
        (recs : List TaskMetadata) (j : List (String × String × String))
        (s : String) (S : List String) (t : String) (T : List String)
        (d : ℚ) (D : List ℚ)
        (Jp : List (String × String × String)) (Fp Lp : List String) (Gp : List ℚ)
        (Jq : List (String × String × String)) (Fq Lq : List String) (Gq : List ℚ),
      get_timing_from_metadata mjd pre = .ok (Jp, Fp, Lp, Gp) →
      collectRecords mjd recs = .ok (j, s :: S, t :: T, d :: D) →
      get_timing_from_metadata mjd post = .ok (Jq, Fq, Lq, Gq) →
      ∃ f l g,
        get_timing_from_metadata mjd (pre ++ (name, recs) :: post)
          = .ok (Jp ++ j ++ Jq, Fp ++ f :: Fq, Lp ++ l :: Lq, Gp ++ g :: Gq)
        ∧ f ∈ s :: S ∧ (∀ y ∈ s :: S, f ≤ y)
        ∧ l ∈ t :: T ∧ (∀ y ∈ t :: T, y ≤ l)
        ∧ g ∈ d :: D ∧ (∀ y ∈ d :: D, y ≤ g))
    ∧ (∀ start stop : String,
        duration mjd start stop
          = (mjd (stop.dropRight 6) - mjd (start.dropRight 6)) * 86400)
    ∧ (∀ (name : String) (v1 v2 : TaskMetadata) (ps1 es1 ps2 es2 : List String)
        (s1 t1 k1 s2 t2 k2 : String) (ks1 ks2 : List String),
      hasArr v1.quantumArrays "startUtc" = true →
      getArr v1.quantumArrays "prepUtc" = .ok ps1 → pyMin ps1 = .ok s1 →
      getArr v1.quantumArrays "endUtc" = .ok es1 → pyMax es1 = .ok t1 →
      v1.metadataKeys = k1 :: ks1 →
      hasArr v2.quantumArrays "startUtc" = true →
      getArr v2.quantumArrays "prepUtc" = .ok ps2 → pyMin ps2 = .ok s2 →
      getArr v2.quantumArrays "endUtc" = .ok es2 → pyMax es2 = .ok t2 →
      v2.metadataKeys = k2 :: ks2 →
      get_timing_from_metadata mjd [(name, [v1, v2])]
        = .ok ([(k1, s1, t1), (k2, s2, t2)], [min s1 s2], [max t1 t2],
            [max ((mjd (t1.dropRight 6) - mjd (s1.dropRight 6)) * 86400)
              ((mjd (t2.dropRight 6) - mjd (s2.dropRight 6)) * 86400)])) := by
  refine ⟨?_, fun start stop => rfl, ?_⟩
  · intro pre post name recs j s S t T d D Jp Fp Lp Gp Jq Fq Lq Gq hpre hcol hpost
    cases hf : pyMin (s :: S) with
    | error e => exact absurd hf (by simp [pyMin])
    | ok f =>
    cases hl : pyMax (t :: T) with
    | error e => exact absurd hl (by simp [pyMax])
    | ok l =>
    cases hg : pyMax (d :: D) with
    | error e => exact absurd hg (by simp [pyMax])
    | ok g =>
    refine ⟨f, l, g, ?_, (pyMin_spec _ _ hf).1, (pyMin_spec _ _ hf).2,
      (pyMax_spec _ _ hl).1, (pyMax_spec _ _ hl).2,
      (pyMax_spec _ _ hg).1, (pyMax_spec _ _ hg).2⟩
    have htask : taskResult mjd recs = .ok (j, f, l, g) := by
      rw [taskResult, hcol]
      simp only [hf, hl, hg]
    have hcons : get_timing_from_metadata mjd ((name, recs) :: post)
        = .ok (j ++ Jq, f :: Fq, l :: Lq, g :: Gq) := by
      simp [get_timing_from_metadata, htask, hpost]
    have happ := get_timing_append mjd pre ((name, recs) :: post) Jp Fp Lp Gp
      (j ++ Jq) (f :: Fq) (l :: Lq) (g :: Gq) hpre hcons
    rw [happ, List.append_assoc]
  · intro name v1 v2 ps1 es1 ps2 es2 s1 t1 k1 s2 t2 k2 ks1 ks2
      hA1 hp1 hm1 he1 hx1 hk1 hA2 hp2 hm2 he2 hx2 hk2
    have h1 := processRecord_convA mjd v1 ps1 es1 s1 t1 k1 ks1 hA1 hp1 hm1 he1 hx1 hk1
    have h2 := processRecord_convA mjd v2 ps2 es2 s2 t2 k2 ks2 hA2 hp2 hm2 he2 hx2 hk2
    have hcol : collectRecords mjd [v1, v2]
        = .ok ([(k1, s1, t1), (k2, s2, t2)], [s1, s2], [t1, t2],
            [duration mjd s1 t1, duration mjd s2 t2]) := by
      simp [collectRecords, h1, h2]
    have htask : taskResult mjd [v1, v2]
        = .ok ([(k1, s1, t1), (k2, s2, t2)], min s1 s2, max t1 t2,
            max (duration mjd s1 t1) (duration mjd s2 t2)) := by
      rw [taskResult, hcol]
      simp only [pyMin_pair, pyMax_pair]
    simp [get_timing_from_metadata, htask, duration]

/-- Witness for C2 at a two-instance Convention-A task with singleton
timestamp arrays. -/
theorem per_task_aggregation_witness :
    get_timing_from_metadata (fun _ => (0 : ℚ))
      [("t", [⟨[("startUtc", ["x"]), ("prepUtc", ["a"]), ("endUtc", ["c"])], ["k1"]⟩,
        ⟨[("startUtc", ["x"]), ("prepUtc", ["b"]), ("endUtc", ["d"])], ["k2"]⟩])]
      = .ok ([("k1", "a", "c"), ("k2", "b", "d")], [min "a" "b"], [max "c" "d"],
          [max (((fun _ => (0 : ℚ)) ("c".dropRight 6)
              - (fun _ => (0 : ℚ)) ("a".dropRight 6)) * 86400)
            (((fun _ => (0 : ℚ)) ("d".dropRight 6)
              - (fun _ => (0 : ℚ)) ("b".dropRight 6)) * 86400)]) :=
  (per_task_aggregation (fun _ => (0 : ℚ))).2.2 "t"
    ⟨[("startUtc", ["x"]), ("prepUtc", ["a"]), ("endUtc", ["c"])], ["k1"]⟩
    ⟨[("startUtc", ["x"]), ("prepUtc", ["b"]), ("endUtc", ["d"])], ["k2"]⟩
    ["a"] ["c"] ["b"] ["d"] "a" "c" "k1" "b" "d" "k2" [] []
    rfl rfl rfl rfl rfl rfl rfl rfl rfl rfl rfl rfl

theorem collectRecords_all_skip (mjd : String → ℚ) :
    ∀ recs : List TaskMetadata,
      (∀ v ∈ recs, hasArr v.quantumArrays "startUtc" = false
        ∧ hasArr v.quantumArrays "runQuantumStartCpuTime" = false) →
      collectRecords mjd recs = .ok ([], [], [], [])
  | [], _ => rfl
  | v :: vs, h => by
    have hv := h v (List.mem_cons_self v vs)
    have hskip := processRecord_skip mjd v hv.1 hv.2
    have ih := collectRecords_all_skip mjd vs (fun u hu => h u (List.mem_cons_of_mem v hu))
    simp only [collectRecords, hskip, ih]

theorem taskResult_all_skip (mjd : String → ℚ) (recs : List TaskMetadata)
    (h : ∀ v ∈ recs, hasArr v.quantumArrays "startUtc" = false
      ∧ hasArr v.quantumArrays "runQuantumStartCpuTime" = false) :
    taskResult mjd recs = .error "min() arg is an empty sequence" := by
  rw [taskResult, collectRecords_all_skip mjd recs h]
  rfl

theorem get_timing_error_of_task_error (mjd : String → ℚ) (e₀ : String) :
    ∀ (td : List (String × List TaskMetadata)) (name : String)
      (recs : List TaskMetadata),
      (name, recs) ∈ td → taskResult mjd recs = .error e₀ →
      ∃ e, get_timing_from_metadata mjd td = .error e
  | [], name, recs, hmem, _ => absurd hmem (List.not_mem_nil _)
  | (k, vv) :: rest, name, recs, hmem, herr => by
    rcases List.mem_cons.mp hmem with heq | hmem2
    · injection heq with h1 h2
      subst h1; subst h2
      exact ⟨e₀, by simp [get_timing_from_metadata, herr]⟩
    · cases htask : taskResult mjd vv with
      | error e => exact ⟨e, by simp [get_timing_from_metadata, htask]⟩
      | ok r =>
        obtain ⟨e, he⟩ := get_timing_error_of_task_error mjd e₀ rest name recs hmem2 herr
        refine ⟨e, ?_⟩
        obtain ⟨j, f, l, g⟩ := r
        simp [get_timing_from_metadata, htask, he]

/--
C8: a task of the input mapping all of whose records are skipped (neither
timing-convention key present) — in particular one with an empty record
list — makes `get_timing_from_metadata` fail by aggregating over an empty
collection (`min` of the empty start list) rather than return a result.
-/
theorem empty_task_aggregation_fails (mjd : String → ℚ)
    (td : List (String × List TaskMetadata)) (name : String)
    (recs : List TaskMetadata) (hmem : (name, recs) ∈ td)
    (hall : ∀ v ∈ recs, hasArr v.quantumArrays "startUtc" = false
      ∧ hasArr v.quantumArrays "runQuantumStartCpuTime" = false) :
    ∃ e, get_timing_from_metadata mjd td = .error e :=
  get_timing_error_of_task_error mjd "min() arg is an empty sequence" td name recs
    hmem (taskResult_all_skip mjd recs hall)

/-- Witness for C8 at a mapping with one task whose record list is empty. -/
theorem empty_task_aggregation_fails_witness :
    ∃ e, get_timing_from_metadata (fun _ => (0 : ℚ)) [("t", [])] = .error e :=
  empty_task_aggregation_fails (fun _ => (0 : ℚ)) [("t", [])] "t" []
    (List.mem_cons_self _ _) (fun v hv => absurd hv (List.not_mem_nil v))

/--
C10: `get_timing_from_metadata` applied to an empty input mapping returns
four empty lists without error.
-/
theorem get_timing_empty_mapping (mjd : String → ℚ) :
    get_timing_from_metadata mjd [] = .ok ([], [], [], []) := rfl

theorem fetchDetectors_ok {α : Type} (fetch : String → Int → Int → Except String α)
    (f : String → Int → Int → α) (hf : ∀ n v d, fetch n v d = .ok (f n v d))
    (task : String) (visit : Int) :
    ∀ ds : List Int,
      fetchDetectors fetch task visit ds
        = .ok (ds.map (fun d => f (task ++ "_metadata") visit d))
  | [] => rfl
  | d :: ds => by
    have ih := fetchDetectors_ok fetch f hf task visit ds
    simp only [fetchDetectors, hf, ih, List.map_cons]

theorem fetchVisits_ok {α : Type} (fetch : String → Int → Int → Except String α)
    (f : String → Int → Int → α) (hf : ∀ n v d, fetch n v d = .ok (f n v d))
    (task : String) (ds : List Int) :
    ∀ vs : List Int,
      fetchVisits fetch task ds vs
        = .ok (vs.flatMap (fun v => ds.map (fun d => f (task ++ "_metadata") v d)))
  | [] => rfl
  | v :: vs => by
    have ih := fetchVisits_ok fetch f hf task ds vs
    simp only [fetchVisits, fetchDetectors_ok fetch f hf task v ds, ih,
      List.flatMap_cons]

theorem get_task_metadata_ok {α : Type} (fetch : String → Int → Int → Except String α)
    (f : String → Int → Int → α) (hf : ∀ n v d, fetch n v d = .ok (f n v d)) :
    ∀ (ts : List String) (vs ds : List Int),
      get_task_metadata fetch ts vs ds
        = .ok (ts.map (fun t =>
            (t, vs.flatMap (fun v => ds.map (fun d => f (t ++ "_metadata") v d)))))
  | [], _, _ => rfl
  | t :: ts, vs, ds => by
    have ih := get_task_metadata_ok fetch f hf ts vs ds
    simp only [get_task_metadata, fetchVisits_ok fetch f hf t ds vs, ih, List.map_cons]

theorem fetchDetectors_error {α : Type} (fetch : String → Int → Int → Except String α)
    (task : String) (visit : Int) :
    ∀ (ds : List Int) (e : String),
      fetchDetectors fetch task visit ds = .error e →
      ∃ d ∈ ds, fetch (task ++ "_metadata") visit d = .error e
  | [], e, h => absurd h (by simp [fetchDetectors])
  | d :: ds, e, h => by
    simp only [fetchDetectors] at h
    cases hx : fetch (task ++ "_metadata") visit d with
    | error e2 =>
      rw [hx] at h
      simp only [Except.error.injEq] at h
      subst h
      exact ⟨d, List.mem_cons_self d ds, hx⟩
    | ok x =>
      rw [hx] at h
      cases hr : fetchDetectors fetch task visit ds with
      | error e2 =>
        rw [hr] at h
        simp only [Except.error.injEq] at h
        subst h
        obtain ⟨d2, hd2, he2⟩ := fetchDetectors_error fetch task visit ds e2 hr
        exact ⟨d2, List.mem_cons_of_mem d hd2, he2⟩
      | ok xs =>
        rw [hr] at h
        exact absurd h (by simp)

theorem fetchVisits_error {α : Type} (fetch : String → Int → Int → Except String α)
    (task : String) (ds : List Int) :
    ∀ (vs : List Int) (e : String),
      fetchVisits fetch task ds vs = .error e →
      ∃ v ∈ vs, ∃ d ∈ ds, fetch (task ++ "_metadata") v d = .error e
  | [], e, h => absurd h (by simp [fetchVisits])
  | v :: vs, e, h => by
    simp only [fetchVisits] at h
    cases hx : fetchDetectors fetch task v ds with
    | error e2 =>
      rw [hx] at h
      simp only [Except.error.injEq] at h
      subst h
      obtain ⟨d, hd, he⟩ := fetchDetectors_error fetch task v ds e2 hx
      exact ⟨v, List.mem_cons_self v vs, d, hd, he⟩
    | ok x =>
      rw [hx] at h
      cases hr : fetchVisits fetch task ds vs with
      | error e2 =>
        rw [hr] at h
        simp only [Except.error.injEq] at h
        subst h
        obtain ⟨v2, hv2, d2, hd2, he2⟩ := fetchVisits_error fetch task ds vs e2 hr
        exact ⟨v2, List.mem_cons_of_mem v hv2, d2, hd2, he2⟩
      | ok xs =>
        rw [hr] at h
        exact absurd h (by simp)

theorem get_task_metadata_error {α : Type}
    (fetch : String → Int → Int → Except String α) :
    ∀ (ts : List String) (vs ds : List Int) (e : String),
      get_task_metadata fetch ts vs ds = .error e →
      ∃ t ∈ ts, ∃ v ∈ vs, ∃ d ∈ ds, fetch (t ++ "_metadata") v d = .error e
  | [], _, _, e, h => absurd h (by simp [get_task_metadata])
  | t :: ts, vs, ds, e, h => by
    simp only [get_task_metadata] at h
    cases hx : fetchVisits fetch t ds vs with
    | error e2 =>
      rw [hx] at h
      simp only [Except.error.injEq] at h
      subst h
      obtain ⟨v, hv, d, hd, he⟩ := fetchVisits_error fetch t ds vs e2 hx
      exact ⟨t, List.mem_cons_self t ts, v, hv, d, hd, he⟩
    | ok x =>
      rw [hx] at h
      cases hr : get_task_metadata fetch ts vs ds with
      | error e2 =>
        rw [hr] at h
        simp only [Except.error.injEq] at h
        subst h
        obtain ⟨t2, ht2, v2, hv2, d2, hd2, he2⟩ :=
          get_task_metadata_error fetch ts vs ds e2 hr
        exact ⟨t2, List.mem_cons_of_mem t ht2, v2, hv2, d2, hd2, he2⟩
      | ok xs =>
        rw [hr] at h
        exact absurd h (by simp)

/--
C9: with every fetch succeeding, `get_task_metadata` maps each task name of
the task list, in order, to exactly one fetched record per (visit, detector)
pair in visit-major, detector-minor order, each fetched under the dataset
name `task + "_metadata"`; and any fetch failure propagates unmodified: an
error result is the unmodified error of some fetch over the requested
task/visit/detector ranges.
-/
theorem get_task_metadata_spec {α : Type}
    (fetch : String → Int → Int → Except String α)
    (task_list : List String) (visit_list detector_list : List Int) :
    (∀ f : String → Int → Int → α, (∀ n v d, fetch n v d = .ok (f n v d)) →
      get_task_metadata fetch task_list visit_list detector_list
        = .ok (task_list.map (fun t =>
            (t, visit_list.flatMap (fun v =>
              detector_list.map (fun d => f (t ++ "_metadata") v d))))))
    ∧ (∀ e, get_task_metadata fetch task_list visit_list detector_list = .error e →
        ∃ t ∈ task_list, ∃ v ∈ visit_list, ∃ d ∈ detector_list,
          fetch (t ++ "_metadata") v d = .error e) :=
  ⟨fun f hf => get_task_metadata_ok fetch f hf task_list visit_list detector_list,
    fun e he => get_task_metadata_error fetch task_list visit_list detector_list e he⟩

/-- Witness for C9: a two-visit, two-detector fetch in visit-major order, and
error propagation from an always-failing fetch. -/
theorem get_task_metadata_spec_witness :
    get_task_metadata (fun n v d => .ok (n, v, d)) ["isr"] [10, 11] [0, 1]
      = .ok [("isr", [("isr_metadata", 10, 0), ("isr_metadata", 10, 1),
          ("isr_metadata", 11, 0), ("isr_metadata", 11, 1)])]
    ∧ ∃ t ∈ ["isr"], ∃ v ∈ ([10] : List Int), ∃ d ∈ ([0] : List Int),
        (fun (_ : String) (_ : Int) (_ : Int) =>
          (.error "boom" : Except String Unit)) (t ++ "_metadata") v d
          = .error "boom" :=
  ⟨(get_task_metadata_spec (fun n v d => .ok (n, v, d)) ["isr"] [10, 11] [0, 1]).1
      (fun n v d => (n, v, d)) (fun _ _ _ => rfl),
    (get_task_metadata_spec
        (fun (_ : String) (_ : Int) (_ : Int) =>
          (.error "boom" : Except String Unit)) ["isr"] [10] [0]).2 "boom" rfl⟩

end AosAnalysis